import Mathlib

/-!
Shallow embedding of the CSS-to-React-Native transform in
`src/packages/expo-styling/src/css-to-rn/index.ts`, together with theorems
settling the specification claims about it.

JavaScript numbers are modelled as rationals (`ℚ`), JavaScript objects and
`Map`s as insertion-ordered association lists, and JavaScript exceptions
(spreading a non-iterable value in `Array.prototype.push`) as `Option`.
-/

namespace CssToRN

/-- A CSS declaration value as it reaches `addStyleProp`.  The `runtimeValue`
constructor stands for the tagged objects recognised by the external
`isRuntimeValue` guard; `arr` is a JavaScript array. -/
inductive Value where
  | str (s : String)
  | num (q : ℚ)
  | runtimeValue (tag : String)
  | arr (elems : List Value)
deriving Repr

/-- Modelled from the spec: the predicate `isRuntimeValue` lives in
`src/runtime/native/guards.ts`, which is not part of the excerpt.  The spec
describes it as "a tagged value requiring deferred resolution, determined by
an external predicate"; the tagged values are exactly the `runtimeValue`
constructor of the value model. -/
def isRuntimeValue : Value → Bool
  | .runtimeValue _ => true
  | _ => false

/-- The elements obtained by JavaScript spread syntax `...value`
(`styleValue.push(...value)` in `addStyleProp`): arrays spread to their
elements, strings to their characters; spreading any other value throws a
`TypeError`, modelled as `none`. -/
def spreadElems : Value → Option (List Value)
  | .arr elems => some elems
  | .str s => some (s.data.map fun c => .str (String.singleton c))
  | _ => none

/-- The global replacement of the regex "dash followed by any character"
with the uppercase of that character — `property.replace` with pattern
`-.` and `(x) => x[1].toUpperCase()` — on the character list: each `-x`
pair is replaced by uppercase `x`, scanning left to right without
overlap. -/
def camelizeChars : List Char → List Char
  | '-' :: c :: rest => c.toUpper :: camelizeChars rest
  | c :: rest => c :: camelizeChars rest
  | [] => []

/-- Kebab-case to camelCase conversion used for React-Native style keys. -/
def camelize (s : String) : String :=
  ⟨camelizeChars s.data⟩

/-- `property.startsWith("--")`. -/
def startsWithDashDash (s : String) : Bool :=
  match s.data with
  | '-' :: '-' :: _ => true
  | _ => false

/-- The property key actually written into the `style` object by
`addStyleProp`: custom properties (leading `--`) keep their name, all other
properties are camelized (lines 320–324 of the source). -/
def normalizeProp (p : String) : String :=
  if startsWithDashDash p then p else camelize p

/-- Lookup in an insertion-ordered association list (JavaScript object /
`Map.get`). -/
def mapGet {α : Type} : List (String × α) → String → Option α
  | [], _ => none
  | (k', v') :: rest, k => if k' = k then some v' else mapGet rest k

/-- Update in an insertion-ordered association list: an existing key is
overwritten in place, a new key is appended at the end (JavaScript object
assignment / `Map.set`). -/
def mapSet {α : Type} : List (String × α) → String → α → List (String × α)
  | [], k, v => [(k, v)]
  | (k', v') :: rest, k, v =>
    if k' = k then (k, v) :: rest else (k', v') :: mapSet rest k v

/-- A media query as read by `extractedMedia`: only `mediaType` and
`qualifier` are inspected; both are optional in the parser's AST. -/
structure MediaQuery where
  mediaType : Option String
  qualifier : Option String
deriving DecidableEq, Repr

/-- The `hover`/`active`/`focus` flag record built by
`setStyleForSelectorList`; a missing key in the JavaScript object is
modelled as `false`. -/
structure PseudoClassesQuery where
  hover : Bool := false
  active : Bool := false
  focus : Bool := false
deriving DecidableEq, Repr

/-- The per-rule style record built by `getExtractedStyle`.  The
`animations` field of the source is omitted: it is written only by
`addAnimationProp`, which no claim mentions, and `addStyleProp` never
touches it. -/
structure ExtractedStyle where
  style : List (String × Value)
  runtimeStyleProps : List String
  variableProps : List String
  media : Option (List MediaQuery) := none
  pseudoClasses : Option PseudoClassesQuery := none
deriving Repr

/-- The freshly initialised accumulator of `getExtractedStyle`. -/
def emptyExtractedStyle : ExtractedStyle :=
  { style := [], runtimeStyleProps := [], variableProps := [] }

/-- One call to `addStyleProp` as performed by `parseDeclaration`:
property name, value (`none` = JavaScript `undefined`), and the two
option flags. -/
structure AddCall where
  property : String
  value : Option Value
  nullishCoalescing : Bool := false
  append : Bool := false

/-- The style-object write of `addStyleProp` (lines 329–340): append mode
spreads the value onto an existing array (throwing, i.e. `none`, if the
value is not spreadable) or wraps it in a fresh one-element array;
nullish-coalescing mode writes only when the key is unset; otherwise the
key is overwritten. -/
def writeStyle (style : List (String × Value)) (property : String) (value : Value)
    (nullishCoalescing append : Bool) : Option (List (String × Value)) :=
  if append then
    match mapGet style property with
    | some (.arr xs) =>
      match spreadElems value with
      | some es => some (mapSet style property (.arr (xs ++ es)))
      | none => none
    | _ => some (mapSet style property (.arr [value]))
  else if nullishCoalescing then
    match mapGet style property with
    | some _ => some style
    | none => some (mapSet style property value)
  else
    some (mapSet style property value)

/-- `addStyleProp` (lines 311–345): an `undefined` value is ignored; a
custom property is recorded in `variableProps` and keeps its name, other
properties are camelized; the style object is written according to the
mode flags; a runtime value additionally records the (normalized) property
name in `runtimeStyleProps`. -/
def addStyleProp (acc : ExtractedStyle) (c : AddCall) : Option ExtractedStyle :=
  match c.value with
  | none => some acc
  | some value =>
    let isCustom := startsWithDashDash c.property
    let variableProps :=
      if isCustom then acc.variableProps ++ [c.property] else acc.variableProps
    let property := normalizeProp c.property
    match writeStyle acc.style property value c.nullishCoalescing c.append with
    | none => none
    | some style =>
      let runtimeStyleProps :=
        if isRuntimeValue value then acc.runtimeStyleProps ++ [property]
        else acc.runtimeStyleProps
      some { acc with
              style := style
              variableProps := variableProps
              runtimeStyleProps := runtimeStyleProps }

/-- A declaration block as handed to `getExtractedStyle`.  The external
`parseDeclaration` (not part of the excerpt) is abstracted by the sequence
of `addStyleProp` calls it performs for each declaration, in document
order. -/
structure DeclarationBlock where
  declarations : List AddCall
  importantDeclarations : List AddCall

/-- An empty declaration block. -/
def emptyDeclarationBlock : DeclarationBlock :=
  { declarations := [], importantDeclarations := [] }

/-- Runs a sequence of `addStyleProp` calls over the accumulator,
propagating a thrown exception as `none`. -/
def runCalls (acc : ExtractedStyle) : List AddCall → Option ExtractedStyle
  | [] => some acc
  | c :: cs =>
    match addStyleProp acc c with
    | none => none
    | some acc' => runCalls acc' cs

/-- `getExtractedStyle` (lines 285–384): normal declarations are processed
first, important declarations after them
(`[declarationBlock.declarations, declarationBlock.importantDeclarations].flat()`). -/
def getExtractedStyle (db : DeclarationBlock) : Option ExtractedStyle :=
  runCalls emptyExtractedStyle (db.declarations ++ db.importantDeclarations)

/-- The pseudo-class kinds distinguished by `setStyleForSelectorList`:
`hover`, `active` and `focus` set a flag; every one of the remaining kinds
enumerated in the source (lines 105–128 and 135–178) falls through with
`break` and is modelled collectively by `other`. -/
inductive PseudoClassKind where
  | hover
  | active
  | focus
  | other (kind : String)
deriving DecidableEq, Repr

/-- One simple-selector component of a compound selector, as dispatched on
by the `switch (selector.type)` in `setStyleForSelectorList` (lines
91–183).  Payload fields the source never reads are omitted. -/
inductive SimpleSelector where
  | combinator
  | universal
  | ns
  | typ (name : String)
  | id (name : String)
  | cls (name : String)
  | attr (name : String)
  | pseudoCls (kind : PseudoClassKind)
  | pseudoElement
  | nesting
deriving DecidableEq, Repr

/-- One iteration of the `for (const selector of selectors)` loop of
`setStyleForSelectorList`: a class selector records its name (overwriting
any earlier one), `hover`/`active`/`focus` set the corresponding flag
(creating the record if needed), everything else is a no-op. -/
def classifyStep (acc : Option String × Option PseudoClassesQuery)
    (selector : SimpleSelector) : Option String × Option PseudoClassesQuery :=
  match selector with
  | .cls name => (some name, acc.2)
  | .pseudoCls .hover => (acc.1, some { acc.2.getD {} with hover := true })
  | .pseudoCls .active => (acc.1, some { acc.2.getD {} with active := true })
  | .pseudoCls .focus => (acc.1, some { acc.2.getD {} with focus := true })
  | _ => acc

/-- The walk over one compound selector (the body of the outer loop of
`setStyleForSelectorList` before the registry update). -/
def classifyCompound (selectors : List SimpleSelector) :
    Option String × Option PseudoClassesQuery :=
  selectors.foldl classifyStep (none, none)

/-- A registry slot: either one `ExtractedStyle` or an ordered list of
them (`ExtractedStyle | ExtractedStyle[]` in the source). -/
inductive StyleSlot where
  | single (s : ExtractedStyle)
  | multi (ss : List ExtractedStyle)
deriving Repr

/-- The class-name registry, a `Map<string, ExtractedStyle | ExtractedStyle[]>`. -/
abbrev Registry := List (String × StyleSlot)

/-- The registry update of `setStyleForSelectorList` (lines 194–202):
first style for a class is stored directly, the second converts the slot
to a two-element list, later ones are appended. -/
def upsertDeclaration (declarations : Registry) (className : String)
    (styleWithPseudoClass : ExtractedStyle) : Registry :=
  match mapGet declarations className with
  | some (.multi existing) =>
    mapSet declarations className (.multi (existing ++ [styleWithPseudoClass]))
  | some (.single existing) =>
    mapSet declarations className (.multi [existing, styleWithPseudoClass])
  | none => mapSet declarations className (.single styleWithPseudoClass)

/-- `setStyleForSelectorList` (lines 81–204): each comma-separated compound
selector is classified independently; a compound selector without a class
component contributes nothing; when pseudo-classes were collected the style
is copied with the `pseudoClasses` field set. -/
def setStyleForSelectorList (style : ExtractedStyle)
    (selectorList : List (List SimpleSelector)) (declarations : Registry) :
    Registry :=
  selectorList.foldl
    (fun declarations selectors =>
      match classifyCompound selectors with
      | (none, _) => declarations
      | (some className, pseudoClasses) =>
        let styleWithPseudoClass :=
          match pseudoClasses with
          | some pc => { style with pseudoClasses := some pc }
          | none => style
        upsertDeclaration declarations className styleWithPseudoClass)
    declarations

/-- The screen-applicability test of `extractedMedia` (lines 212–221):
`isScreen` is "media type is not `print`", negated when the qualifier is
`not`. -/
def isScreenQuery (mq : MediaQuery) : Bool :=
  let isScreen := !(mq.mediaType == some "print")
  if mq.qualifier == some "not" then !isScreen else isScreen

/-- The filtered query list built by the first loop of `extractedMedia`. -/
def screenQueries (mediaQueries : List MediaQuery) : List MediaQuery :=
  mediaQueries.filter isScreenQuery

/-- A keyframe selector: `from`, `to`, or a percentage literal, which the
parser reports as a fraction of 1 (`50%` is `0.5`). -/
inductive KeyframeSelector where
  | from'
  | to'
  | percentage (value : ℚ)
deriving DecidableEq, Repr

/-- One frame of a keyframes rule. -/
structure Frame where
  selectors : List KeyframeSelector
  declarations : DeclarationBlock

/-- A `@keyframes` rule: animation name and frames. -/
structure KeyframesRule where
  name : String
  keyframes : List Frame

/-- One entry of an extracted keyframe sequence. -/
structure ExtractedKeyframe where
  selector : ℚ
  style : List (String × Value)
deriving Repr

/-- The keyframes registry, a `Map<string, ExtractedKeyframe[]>`. -/
abbrev KeyframesMap := List (String × List ExtractedKeyframe)

/-- Stable insertion of a frame into an ascending list: the inserted frame
goes before the first strictly-greater or equal-and-later element it was
compared against, i.e. before any element it was originally left of. -/
def insertFrame (x : ExtractedKeyframe) : List ExtractedKeyframe → List ExtractedKeyframe
  | [] => [x]
  | y :: ys => if x.selector ≤ y.selector then x :: y :: ys else y :: insertFrame x ys

/-- `frames.sort((a, b) => a.selector - b.selector)`: a stable ascending
sort by `selector` (JavaScript `Array.prototype.sort` is stable). -/
def sortFrames (frames : List ExtractedKeyframe) : List ExtractedKeyframe :=
  frames.foldr insertFrame []

/-- `extractKeyFrames` (lines 242–283), kept faithful to the source: for
each selector of a frame the guard value `keyframe` is computed (with the
percentage scaled by 100) and only tested against `undefined`; the push
loop then iterates over all of the frame's selectors again (the inner
`for (const selector of frame.selectors)`), pushing the unscaled
`selector.value` for percentages, `0` for `from` and `100` for `to`.  The
collected frames are sorted and stored under the animation name. -/
def extractKeyFrames (keyframesRule : KeyframesRule) (map : KeyframesMap) :
    Option KeyframesMap :=
  (keyframesRule.keyframes.foldlM
    (fun frames frame =>
      (getExtractedStyle frame.declarations).map fun extracted =>
        frame.selectors.foldl
          (fun frames sel =>
            let keyframe : Option ℚ :=
              match sel with
              | .percentage value => some (value * 100)
              | .from' => some 0
              | .to' => some 100
            match keyframe with
            | none => frames
            | some _ =>
              frame.selectors.foldl
                (fun frames selector =>
                  match selector with
                  | .percentage value => frames ++ [⟨value, extracted.style⟩]
                  | .from' => frames ++ [⟨0, extracted.style⟩]
                  | .to' => frames ++ [⟨100, extracted.style⟩])
                frames)
          frames)
    ([] : List ExtractedKeyframe)).map
    fun frames => mapSet map keyframesRule.name (sortFrames frames)

/-- A style rule: optional declaration block plus selector list. -/
structure StyleRule where
  declarations : Option DeclarationBlock
  selectors : List (List SimpleSelector)

/-- A rule as dispatched on by `extractRule` (lines 55–79).  The `media`
constructor flattens `rule.value.query.mediaQueries` and
`rule.value.rules`; `other` stands for every rule kind the `switch`
ignores. -/
inductive Rule where
  | style (value : StyleRule)
  | media (mediaQueries : List MediaQuery) (rules : List Rule)
  | keyframes (value : KeyframesRule)
  | other

/-- `extractedMedia` (lines 206–240): filter the queries to the
screen-applicable ones; if none remain the rule contributes nothing;
otherwise every nested style rule with declarations is extracted with the
filtered list attached as its `media` field and merged through
`setStyleForSelectorList`. -/
def extractedMedia (mediaQueries : List MediaQuery) (rules : List Rule)
    (declarations : Registry) : Option Registry :=
  let media := screenQueries mediaQueries
  if media.isEmpty then some declarations
  else
    rules.foldlM
      (fun declarations rule =>
        match rule with
        | .style sv =>
          match sv.declarations with
          | some db =>
            (getExtractedStyle db).map fun extractedStyle =>
              setStyleForSelectorList { extractedStyle with media := some media }
                sv.selectors declarations
          | none => some declarations
        | _ => some declarations)
      declarations

/-- `extractRule` (lines 55–79): dispatch on the rule kind, updating the
two registries. -/
def extractRule (rule : Rule) (declarations : Registry)
    (keyframes : KeyframesMap) : Option (Registry × KeyframesMap) :=
  match rule with
  | .keyframes kf => (extractKeyFrames kf keyframes).map fun m => (declarations, m)
  | .media qs rs => (extractedMedia qs rs declarations).map fun d => (d, keyframes)
  | .style sv =>
    match sv.declarations with
    | some db =>
      (getExtractedStyle db).map fun extractedStyle =>
        (setStyleForSelectorList extractedStyle sv.selectors declarations, keyframes)
    | none => some (declarations, keyframes)
  | .other => some (declarations, keyframes)

/-! ## Association-list lemmas -/

theorem mapGet_mapSet_self {α : Type} (m : List (String × α)) (k : String) (v : α) :
    mapGet (mapSet m k v) k = some v := by
  induction m with
  | nil => simp [mapGet, mapSet]
  | cons hd tl ih =>
    obtain ⟨k', v'⟩ := hd
    by_cases h : k' = k
    · simp [mapGet, mapSet, h]
    · simp [mapGet, mapSet, h, ih]

theorem mapGet_mapSet_ne {α : Type} (m : List (String × α)) (k k' : String) (v : α)
    (h : k' ≠ k) : mapGet (mapSet m k v) k' = mapGet m k' := by
  induction m with
  | nil => simp [mapSet, mapGet, Ne.symm h]
  | cons hd tl ih =>
    obtain ⟨k0, v0⟩ := hd
    by_cases h0 : k0 = k
    · subst h0
      simp [mapSet, mapGet, Ne.symm h]
    · by_cases h1 : k0 = k'
      · simp [mapSet, mapGet, h0, h1, h]
      · simp [mapSet, mapGet, h0, h1, ih]

theorem mem_mapSet {α : Type} (m : List (String × α)) (k0 : String) (v : α)
    (k : String) (w : α) : (k, w) ∈ mapSet m k0 v → (k, w) ∈ m ∨ k = k0 := by
  induction m with
  | nil =>
    intro h
    simp only [mapSet, List.mem_singleton, Prod.mk.injEq] at h
    exact Or.inr h.1
  | cons hd tl ih =>
    obtain ⟨k', v'⟩ := hd
    intro h
    by_cases hk : k' = k0
    · subst hk
      rw [show mapSet ((k', v') :: tl) k' v = (k', v) :: tl from by simp [mapSet]] at h
      rcases List.mem_cons.mp h with h | h
      · exact Or.inr (congrArg Prod.fst h)
      · exact Or.inl (List.mem_cons_of_mem _ h)
    · rw [show mapSet ((k', v') :: tl) k0 v = (k', v') :: mapSet tl k0 v from by
          simp [mapSet, hk]] at h
      rcases List.mem_cons.mp h with h | h
      · exact Or.inl (List.mem_cons.mpr (Or.inl h))
      · rcases ih h with h2 | h2
        · exact Or.inl (List.mem_cons_of_mem _ h2)
        · exact Or.inr h2

/-! ## Behaviour of the style writer -/

theorem writeStyle_overwrite (style : List (String × Value)) (p : String) (v : Value) :
    writeStyle style p v false false = some (mapSet style p v) := rfl

theorem writeStyle_coalesce_unset (style : List (String × Value)) (p : String) (v : Value)
    (h : mapGet style p = none) :
    writeStyle style p v true false = some (mapSet style p v) := by
  simp [writeStyle, h]

theorem writeStyle_coalesce_set (style : List (String × Value)) (p : String) (v w : Value)
    (h : mapGet style p = some w) :
    writeStyle style p v true false = some style := by
  simp [writeStyle, h]

theorem writeStyle_append_arr (style : List (String × Value)) (p : String)
    (xs ys : List Value) (nc : Bool) (h : mapGet style p = some (.arr xs)) :
    writeStyle style p (.arr ys) nc true = some (mapSet style p (.arr (xs ++ ys))) := by
  simp [writeStyle, h, spreadElems]

theorem writeStyle_append_absent (style : List (String × Value)) (p : String) (v : Value)
    (nc : Bool) (h : mapGet style p = none) :
    writeStyle style p v nc true = some (mapSet style p (.arr [v])) := by
  simp [writeStyle, h]

theorem writeStyle_frame (style : List (String × Value)) (p : String) (v : Value)
    (nc ap : Bool) (style' : List (String × Value))
    (h : writeStyle style p v nc ap = some style') :
    ∀ k, k ≠ p → mapGet style' k = mapGet style k := by
  intro k hk
  unfold writeStyle at h
  split at h
  · split at h
    · split at h
      · injection h with h; subst h; exact mapGet_mapSet_ne _ _ _ _ hk
      · exact absurd h (by simp)
    · injection h with h; subst h; exact mapGet_mapSet_ne _ _ _ _ hk
  · split at h
    · split at h
      · injection h with h; subst h; rfl
      · injection h with h; subst h; exact mapGet_mapSet_ne _ _ _ _ hk
    · injection h with h; subst h; exact mapGet_mapSet_ne _ _ _ _ hk

/-! ## Per-call behaviour of addStyleProp -/

/-- C10: an `undefined` value makes `addStyleProp` return without touching
the accumulator — no entry is added to `style`, `variableProps` or
`runtimeStyleProps`, for any property name and any write mode. -/
theorem addStyleProp_undefined_noop (acc : ExtractedStyle) (p : String) (nc ap : Bool) :
    addStyleProp acc ⟨p, none, nc, ap⟩ = some acc := rfl

/-- C5: a custom property (leading `--`) is recorded in `variableProps`
and written into `style` under its unchanged name (only that key can
change); a standard property is written under its camelCase conversion
(only that key can change) and leaves `variableProps` alone; in plain
overwrite mode the value lands under the normalized key; and
`margin-right` camelizes to `marginRight`. -/
theorem declaration_property_naming (acc : ExtractedStyle) (p : String) (v : Value)
    (nc ap : Bool) :
    (∀ r, addStyleProp acc ⟨p, some v, nc, ap⟩ = some r →
      (startsWithDashDash p = true →
        r.variableProps = acc.variableProps ++ [p] ∧
        normalizeProp p = p ∧
        ∀ k, k ≠ p → mapGet r.style k = mapGet acc.style k) ∧
      (startsWithDashDash p = false →
        r.variableProps = acc.variableProps ∧
        normalizeProp p = camelize p ∧
        ∀ k, k ≠ camelize p → mapGet r.style k = mapGet acc.style k)) ∧
    (∀ r, addStyleProp acc ⟨p, some v, false, false⟩ = some r →
      mapGet r.style (normalizeProp p) = some v) ∧
    camelize "margin-right" = "marginRight" := by
  refine ⟨?_, ?_, by decide⟩
  · intro r hr
    unfold addStyleProp at hr
    simp only at hr
    rcases hw : writeStyle acc.style (normalizeProp p) v nc ap with _ | style'
    · rw [hw] at hr; exact absurd hr (by simp)
    · rw [hw] at hr
      injection hr with hr
      subst hr
      constructor
      · intro hc
        refine ⟨by simp [hc], by simp [normalizeProp, hc], ?_⟩
        intro k hk
        exact writeStyle_frame _ _ _ _ _ _ hw k (by simpa [normalizeProp, hc] using hk)
      · intro hc
        refine ⟨by simp [hc], by simp [normalizeProp, hc], ?_⟩
        intro k hk
        exact writeStyle_frame _ _ _ _ _ _ hw k (by simpa [normalizeProp, hc] using hk)
  · intro r hr
    unfold addStyleProp at hr
    simp only at hr
    rw [writeStyle_overwrite] at hr
    injection hr with hr
    subst hr
    exact mapGet_mapSet_self _ _ _

/-- Witness for C5 at the custom property `--primary` and a standard
property lookup. -/
theorem declaration_property_naming_witness :
    ({ style := [("--primary", Value.str "red")], runtimeStyleProps := [],
       variableProps := ["--primary"] } : ExtractedStyle).variableProps
        = ([] : List String) ++ ["--primary"] ∧
    mapGet [("--primary", Value.str "red")] "color"
        = mapGet emptyExtractedStyle.style "color" ∧
    camelize "margin-right" = "marginRight" := by
  refine ⟨?_, ?_, ?_⟩
  · exact (((declaration_property_naming emptyExtractedStyle "--primary" (.str "red")
      false false).1 _ rfl).1 rfl).1
  · exact (((declaration_property_naming emptyExtractedStyle "--primary" (.str "red")
      false false).1 _ rfl).1 rfl).2.2 "color" (by decide)
  · exact (declaration_property_naming emptyExtractedStyle "--primary" (.str "red")
      false false).2.2

/-- C8: the three write modes of `addStyleProp` for a defined value —
overwrite always replaces the entry at the normalized key; nullish
coalescing writes only when that key is unset and never clobbers an
existing entry; append concatenates an array value onto an existing
array-valued entry and wraps the value into a one-element array when the
key is absent. -/
theorem declaration_write_modes (acc : ExtractedStyle) (p : String) (v : Value) :
    ((addStyleProp acc ⟨p, some v, false, false⟩).bind
        (fun r => mapGet r.style (normalizeProp p)) = some v) ∧
    (mapGet acc.style (normalizeProp p) = none →
      (addStyleProp acc ⟨p, some v, true, false⟩).bind
        (fun r => mapGet r.style (normalizeProp p)) = some v) ∧
    (∀ w, mapGet acc.style (normalizeProp p) = some w →
      (addStyleProp acc ⟨p, some v, true, false⟩).bind
        (fun r => mapGet r.style (normalizeProp p)) = some w) ∧
    (∀ xs ys, mapGet acc.style (normalizeProp p) = some (.arr xs) →
      (addStyleProp acc ⟨p, some (.arr ys), false, true⟩).bind
        (fun r => mapGet r.style (normalizeProp p)) = some (.arr (xs ++ ys))) ∧
    (mapGet acc.style (normalizeProp p) = none →
      (addStyleProp acc ⟨p, some v, false, true⟩).bind
        (fun r => mapGet r.style (normalizeProp p)) = some (.arr [v])) := by
  refine ⟨?_, ?_, ?_, ?_, ?_⟩
  · unfold addStyleProp
    simp only [writeStyle_overwrite, Option.bind_some]
    exact mapGet_mapSet_self _ _ _
  · intro h
    unfold addStyleProp
    simp only [writeStyle_coalesce_unset _ _ _ h, Option.bind_some]
    exact mapGet_mapSet_self _ _ _
  · intro w h
    unfold addStyleProp
    simp only [writeStyle_coalesce_set _ _ _ _ h, Option.bind_some]
    exact h
  · intro xs ys h
    unfold addStyleProp
    simp only [writeStyle_append_arr _ _ _ _ _ h, Option.bind_some]
    exact mapGet_mapSet_self _ _ _
  · intro h
    unfold addStyleProp
    simp only [writeStyle_append_absent _ _ _ _ h, Option.bind_some]
    exact mapGet_mapSet_self _ _ _

/-- A small accumulator with one array-valued and one scalar entry, used
to exercise the write modes. -/
def accWithEntries : ExtractedStyle :=
  { style := [("transitionDuration", .arr [.num 1]), ("color", .str "red")],
    runtimeStyleProps := [], variableProps := [] }

/-- Witness for C8: overwrite lands the value under `marginRight`, a
coalesced write leaves the existing `color` entry alone, and an appended
array is concatenated onto `transitionDuration`. -/
theorem declaration_write_modes_witness :
    ((addStyleProp accWithEntries ⟨"margin-right", some (.num 2), false, false⟩).bind
        (fun r => mapGet r.style (normalizeProp "margin-right")) = some (.num 2)) ∧
    ((addStyleProp accWithEntries ⟨"color", some (.str "blue"), true, false⟩).bind
        (fun r => mapGet r.style (normalizeProp "color")) = some (.str "red")) ∧
    ((addStyleProp accWithEntries
          ⟨"transition-duration", some (.arr [.num 2]), false, true⟩).bind
        (fun r => mapGet r.style (normalizeProp "transition-duration"))
      = some (.arr ([.num 1] ++ [.num 2]))) := by
  refine ⟨?_, ?_, ?_⟩
  · exact (declaration_write_modes accWithEntries "margin-right" (.num 2)).1
  · exact (declaration_write_modes accWithEntries "color" (.str "blue")).2.2.1
      (.str "red") rfl
  · exact (declaration_write_modes accWithEntries "transition-duration"
      (.arr [.num 2])).2.2.2.1 [.num 1] [.num 2] rfl

/-! ## Keyframe extraction at the failing inputs -/

/-- The spec's keyframe-ordering example `50% {} 0% {} 100% {}`, with the
parser reporting percentages as fractions of 1. -/
def kfRuleOrdering : KeyframesRule :=
  { name := "k",
    keyframes :=
      [ ⟨[.percentage (Rat.divInt 1 2)], emptyDeclarationBlock⟩,
        ⟨[.percentage 0], emptyDeclarationBlock⟩,
        ⟨[.percentage 1], emptyDeclarationBlock⟩ ] }

/-- C1: at the spec's own example the stored selectors are the raw parser
fractions `[0, 1/2, 1]` — the `* 100` scaling is computed into the unused
guard variable and never applied to the pushed value — instead of the
claimed `[0, 50, 100]`. -/
theorem keyframe_percentage_unscaled :
    ((extractKeyFrames kfRuleOrdering []).map fun m =>
        (mapGet m "k").map fun frames => frames.map ExtractedKeyframe.selector)
      = some (some [0, Rat.divInt 1 2, 1]) ∧
    ([0, Rat.divInt 1 2, 1] : List ℚ) ≠ [0, 50, 100] := by
  exact ⟨by decide, by decide⟩

/-- A single frame with the two selectors `0%, 50%`. -/
def kfRuleTwoSelectors : KeyframesRule :=
  { name := "k",
    keyframes :=
      [⟨[.percentage 0, .percentage (Rat.divInt 1 2)], emptyDeclarationBlock⟩] }

/-- C2: a frame with 2 selectors emits 4 keyframe entries, not 2 — the
push loop re-iterates all of the frame's selectors for every selector. -/
theorem keyframe_entry_count_squared :
    ((extractKeyFrames kfRuleTwoSelectors []).map fun m =>
        (mapGet m "k").map List.length)
      = some (some 4) ∧ (4 : Nat) ≠ 2 := by
  exact ⟨by decide, by decide⟩

/-! ## Registry merge policy -/

theorem upsert_get_none (d : Registry) (cn : String) (s : ExtractedStyle)
    (h : mapGet d cn = none) :
    mapGet (upsertDeclaration d cn s) cn = some (.single s) := by
  unfold upsertDeclaration
  rw [h]
  exact mapGet_mapSet_self _ _ _

theorem upsert_get_single (d : Registry) (cn : String) (s e : ExtractedStyle)
    (h : mapGet d cn = some (.single e)) :
    mapGet (upsertDeclaration d cn s) cn = some (.multi [e, s]) := by
  unfold upsertDeclaration
  rw [h]
  exact mapGet_mapSet_self _ _ _

theorem upsert_get_multi (d : Registry) (cn : String) (s : ExtractedStyle)
    (es : List ExtractedStyle) (h : mapGet d cn = some (.multi es)) :
    mapGet (upsertDeclaration d cn s) cn = some (.multi (es ++ [s])) := by
  unfold upsertDeclaration
  rw [h]
  exact mapGet_mapSet_self _ _ _

/-- A sequence of style rules, each targeting exactly the class `cn`,
processed in source order through `setStyleForSelectorList`. -/
def addRules (cn : String) (ss : List ExtractedStyle) (d : Registry) : Registry :=
  ss.foldl (fun d s => setStyleForSelectorList s [[.cls cn]] d) d

theorem setStyleForSelectorList_singleClass (s : ExtractedStyle) (cn : String)
    (d : Registry) :
    setStyleForSelectorList s [[.cls cn]] d = upsertDeclaration d cn s := rfl

theorem addRules_multi (cn : String) :
    ∀ (ss : List ExtractedStyle) (d : Registry) (es : List ExtractedStyle),
      mapGet d cn = some (.multi es) →
      mapGet (addRules cn ss d) cn = some (.multi (es ++ ss)) := by
  intro ss
  induction ss with
  | nil => intro d es h; simpa [addRules] using h
  | cons s rest ih =>
    intro d es h
    have step : mapGet (upsertDeclaration d cn s) cn = some (.multi (es ++ [s])) :=
      upsert_get_multi d cn s es h
    have : addRules cn (s :: rest) d = addRules cn rest (upsertDeclaration d cn s) := rfl
    rw [this, ih _ _ step]
    simp

/-- C3: the registry merge policy of `setStyleForSelectorList` — a class
with no entry gets the single style stored directly, a single entry is
converted to a two-element list, a list gets the style appended, and n ≥ 2
rules targeting the same class starting from an empty registry produce the
n-element list in rule-encounter order. -/
theorem registry_merge_policy (cn : String) (s : ExtractedStyle) (d : Registry)
    (ss : List ExtractedStyle) :
    (mapGet d cn = none →
      mapGet (setStyleForSelectorList s [[.cls cn]] d) cn = some (.single s)) ∧
    (∀ e, mapGet d cn = some (.single e) →
      mapGet (setStyleForSelectorList s [[.cls cn]] d) cn = some (.multi [e, s])) ∧
    (∀ es, mapGet d cn = some (.multi es) →
      mapGet (setStyleForSelectorList s [[.cls cn]] d) cn = some (.multi (es ++ [s]))) ∧
    (2 ≤ ss.length → mapGet (addRules cn ss []) cn = some (.multi ss)) := by
  refine ⟨?_, ?_, ?_, ?_⟩
  · intro h
    rw [setStyleForSelectorList_singleClass]
    exact upsert_get_none d cn s h
  · intro e h
    rw [setStyleForSelectorList_singleClass]
    exact upsert_get_single d cn s e h
  · intro es h
    rw [setStyleForSelectorList_singleClass]
    exact upsert_get_multi d cn s es h
  · intro hlen
    match ss, hlen with
    | s1 :: s2 :: rest, _ =>
      have h0 : mapGet (upsertDeclaration ([] : Registry) cn s1) cn
          = some (.single s1) := upsert_get_none [] cn s1 rfl
      have h1 : mapGet (upsertDeclaration (upsertDeclaration ([] : Registry) cn s1) cn s2) cn
          = some (.multi [s1, s2]) :=
        upsert_get_single _ cn s2 s1 h0
      have h2 : addRules cn (s1 :: s2 :: rest) ([] : Registry)
          = addRules cn rest
              (upsertDeclaration (upsertDeclaration ([] : Registry) cn s1) cn s2) := rfl
      rw [h2, addRules_multi cn rest _ [s1, s2] h1]
      simp

/-- Three distinguishable styles for the merge-order witness. -/
def sampleStyleA : ExtractedStyle :=
  { style := [("opacity", .num 1)], runtimeStyleProps := [], variableProps := [] }

/-- Second sample style. -/
def sampleStyleB : ExtractedStyle :=
  { style := [("opacity", .num 2)], runtimeStyleProps := [], variableProps := [] }

/-- Third sample style. -/
def sampleStyleC : ExtractedStyle :=
  { style := [("opacity", .num 3)], runtimeStyleProps := [], variableProps := [] }

/-- Witness for C3: three rules targeting `.foo` produce an ordered
three-element list under key `foo`. -/
theorem registry_merge_policy_witness :
    mapGet (addRules "foo" [sampleStyleA, sampleStyleB, sampleStyleC] []) "foo"
      = some (.multi [sampleStyleA, sampleStyleB, sampleStyleC]) :=
  (registry_merge_policy "foo" emptyExtractedStyle []
    [sampleStyleA, sampleStyleB, sampleStyleC]).2.2.2 (by decide)

/-! ## Bookkeeping of runtimeStyleProps and variableProps -/

/-- The entry one `addStyleProp` call contributes to `runtimeStyleProps`:
the normalized property name when the value is defined and a runtime
value. -/
def runtimeCallProp (c : AddCall) : Option String :=
  match c.value with
  | some v => if isRuntimeValue v then some (normalizeProp c.property) else none
  | none => none

/-- The entry one `addStyleProp` call contributes to `variableProps`: the
unchanged name when the value is defined and the property is custom. -/
def variableCallProp (c : AddCall) : Option String :=
  match c.value with
  | some _ => if startsWithDashDash c.property then some c.property else none
  | none => none

/-- The `runtimeStyleProps` entries produced by a call sequence, in
order. -/
def runtimePropsOfCalls (calls : List AddCall) : List String :=
  calls.filterMap runtimeCallProp

/-- The `variableProps` entries produced by a call sequence, in order. -/
def variablePropsOfCalls (calls : List AddCall) : List String :=
  calls.filterMap variableCallProp

theorem addStyleProp_props (acc : ExtractedStyle) (c : AddCall) (r : ExtractedStyle)
    (h : addStyleProp acc c = some r) :
    r.runtimeStyleProps = acc.runtimeStyleProps ++ runtimePropsOfCalls [c] ∧
    r.variableProps = acc.variableProps ++ variablePropsOfCalls [c] := by
  unfold addStyleProp at h
  cases hv : c.value with
  | none =>
    rw [hv] at h
    injection h with h
    subst h
    simp [runtimePropsOfCalls, variablePropsOfCalls, runtimeCallProp, variableCallProp, hv]
  | some v =>
    rw [hv] at h
    simp only at h
    rcases hw : writeStyle acc.style (normalizeProp c.property) v
        c.nullishCoalescing c.append with _ | st
    · rw [hw] at h; exact absurd h (by simp)
    · rw [hw] at h
      injection h with h
      subst h
      constructor
      · by_cases hr : isRuntimeValue v <;>
          simp [runtimePropsOfCalls, runtimeCallProp, hv, hr]
      · by_cases hc : startsWithDashDash c.property <;>
          simp [variablePropsOfCalls, variableCallProp, hv, hc]

theorem runCalls_props :
    ∀ (calls : List AddCall) (acc r : ExtractedStyle), runCalls acc calls = some r →
      r.runtimeStyleProps = acc.runtimeStyleProps ++ runtimePropsOfCalls calls ∧
      r.variableProps = acc.variableProps ++ variablePropsOfCalls calls := by
  intro calls
  induction calls with
  | nil =>
    intro acc r h
    simp only [runCalls] at h
    injection h with h
    subst h
    simp [runtimePropsOfCalls, variablePropsOfCalls]
  | cons c cs ih =>
    intro acc r h
    unfold runCalls at h
    rcases ha : addStyleProp acc c with _ | acc2
    · rw [ha] at h; exact absurd h (by simp)
    · rw [ha] at h
      have h1 := addStyleProp_props acc c acc2 ha
      have h2 := ih acc2 r h
      constructor
      · rw [h2.1, h1.1]
        rcases hrc : runtimeCallProp c with _ | b <;>
          simp [runtimePropsOfCalls, List.filterMap_cons, hrc]
      · rw [h2.2, h1.2]
        rcases hvc : variableCallProp c with _ | b <;>
          simp [variablePropsOfCalls, List.filterMap_cons, hvc]

/-- Two declarations of the same property, both with runtime values. -/
def dupRuntimeBlock : DeclarationBlock :=
  { declarations :=
      [ ⟨"color", some (.runtimeValue "v1"), false, false⟩,
        ⟨"color", some (.runtimeValue "v2"), false, false⟩ ],
    importantDeclarations := [] }

/-- C9 fails as stated: declaring `color` twice with runtime values leaves
the duplicate entry `["color", "color"]` in `runtimeStyleProps` — the
source pushes onto a plain array, so the field is not a duplicate-free
set. -/
theorem runtime_props_duplicated :
    ((getExtractedStyle dupRuntimeBlock).map fun r => r.runtimeStyleProps)
      = some ["color", "color"] ∧
    ¬ (["color", "color"] : List String).Nodup := by
  exact ⟨rfl, by decide⟩

/-- C9 amended: `runtimeStyleProps` records the normalized property name
once per processed declaration whose (defined) value is a runtime value,
in processing order, and `variableProps` records the unchanged name once
per custom-property declaration — duplicates are retained when the same
property is declared repeatedly. -/
theorem props_record_per_declaration (db : DeclarationBlock) (r : ExtractedStyle)
    (h : getExtractedStyle db = some r) :
    r.runtimeStyleProps
        = runtimePropsOfCalls (db.declarations ++ db.importantDeclarations) ∧
    r.variableProps
        = variablePropsOfCalls (db.declarations ++ db.importantDeclarations) := by
  have := runCalls_props (db.declarations ++ db.importantDeclarations)
    emptyExtractedStyle r h
  simpa [emptyExtractedStyle] using this

/-- The extracted style for `dupRuntimeBlock`. -/
def dupRuntimeResult : ExtractedStyle :=
  { style := [("color", .runtimeValue "v2")],
    runtimeStyleProps := ["color", "color"], variableProps := [] }

/-- Witness for the amended C9 at the duplicate-declaration block. -/
theorem props_record_per_declaration_witness :
    dupRuntimeResult.runtimeStyleProps
        = runtimePropsOfCalls
            (dupRuntimeBlock.declarations ++ dupRuntimeBlock.importantDeclarations) ∧
    dupRuntimeResult.variableProps
        = variablePropsOfCalls
            (dupRuntimeBlock.declarations ++ dupRuntimeBlock.importantDeclarations) :=
  props_record_per_declaration dupRuntimeBlock dupRuntimeResult rfl

/-! ## Provenance of style keys -/

theorem writeStyle_mem (style : List (String × Value)) (p : String) (v : Value)
    (nc ap : Bool) (st : List (String × Value)) (h : writeStyle style p v nc ap = some st) :
    ∀ k w, (k, w) ∈ st → (∃ w', (k, w') ∈ style) ∨ k = p := by
  intro k w hm
  unfold writeStyle at h
  split at h
  · split at h
    · split at h
      · injection h with h; subst h
        rcases mem_mapSet _ _ _ _ _ hm with h2 | h2
        · exact Or.inl ⟨w, h2⟩
        · exact Or.inr h2
      · exact absurd h (by simp)
    · injection h with h; subst h
      rcases mem_mapSet _ _ _ _ _ hm with h2 | h2
      · exact Or.inl ⟨w, h2⟩
      · exact Or.inr h2
  · split at h
    · split at h
      · injection h with h; subst h
        exact Or.inl ⟨w, hm⟩
      · injection h with h; subst h
        rcases mem_mapSet _ _ _ _ _ hm with h2 | h2
        · exact Or.inl ⟨w, h2⟩
        · exact Or.inr h2
    · injection h with h; subst h
      rcases mem_mapSet _ _ _ _ _ hm with h2 | h2
      · exact Or.inl ⟨w, h2⟩
      · exact Or.inr h2

theorem addStyleProp_style_mem (acc : ExtractedStyle) (c : AddCall) (r : ExtractedStyle)
    (h : addStyleProp acc c = some r) :
    ∀ k w, (k, w) ∈ r.style →
      (∃ w', (k, w') ∈ acc.style) ∨ (c.value.isSome ∧ k = normalizeProp c.property) := by
  intro k w hm
  unfold addStyleProp at h
  cases hv : c.value with
  | none =>
    rw [hv] at h
    injection h with h
    subst h
    exact Or.inl ⟨w, hm⟩
  | some v =>
    rw [hv] at h
    simp only at h
    rcases hw : writeStyle acc.style (normalizeProp c.property) v
        c.nullishCoalescing c.append with _ | st
    · rw [hw] at h; exact absurd h (by simp)
    · rw [hw] at h
      injection h with h
      subst h
      rcases writeStyle_mem _ _ _ _ _ _ hw k w hm with h2 | h2
      · exact Or.inl h2
      · exact Or.inr ⟨by simp [hv], h2⟩

theorem runCalls_style_mem :
    ∀ (calls : List AddCall) (acc r : ExtractedStyle), runCalls acc calls = some r →
      ∀ k w, (k, w) ∈ r.style →
        (∃ w', (k, w') ∈ acc.style) ∨
        ∃ c, c ∈ calls ∧ c.value.isSome ∧ k = normalizeProp c.property := by
  intro calls
  induction calls with
  | nil =>
    intro acc r h k w hm
    simp only [runCalls] at h
    injection h with h
    subst h
    exact Or.inl ⟨w, hm⟩
  | cons c cs ih =>
    intro acc r h k w hm
    unfold runCalls at h
    rcases ha : addStyleProp acc c with _ | acc2
    · rw [ha] at h; exact absurd h (by simp)
    · rw [ha] at h
      rcases ih acc2 r h k w hm with ⟨w', hw'⟩ | ⟨c', hc1, hc2, hc3⟩
      · rcases addStyleProp_style_mem acc c acc2 ha k w' hw' with h2 | ⟨h2, h3⟩
        · exact Or.inl h2
        · exact Or.inr ⟨c, List.mem_cons_self _ _, h2, h3⟩
      · exact Or.inr ⟨c', List.mem_cons_of_mem _ hc1, hc2, hc3⟩

/-- C6 amended: in any extracted style, every key of the `style` map is
the normalized name of some processed declaration — camelCase for a
standard property, the verbatim `--`-prefixed name for a custom property
(which is therefore also recorded in `variableProps`); the claim's "no
leading `--`" holds only for standard properties. -/
theorem style_keys_normalized (db : DeclarationBlock) (r : ExtractedStyle)
    (h : getExtractedStyle db = some r) :
    (∀ k w, (k, w) ∈ r.style →
      ∃ c, c ∈ db.declarations ++ db.importantDeclarations ∧
        c.value.isSome ∧ k = normalizeProp c.property) ∧
    (∀ c, c ∈ db.declarations ++ db.importantDeclarations → c.value.isSome →
      startsWithDashDash c.property = true → c.property ∈ r.variableProps) ∧
    (∀ p, startsWithDashDash p = false → normalizeProp p = camelize p) ∧
    (∀ p, startsWithDashDash p = true → normalizeProp p = p) := by
  refine ⟨?_, ?_, ?_, ?_⟩
  · intro k w hm
    rcases runCalls_style_mem _ _ _ h k w hm with ⟨w', hw'⟩ | hc
    · exact absurd hw' (by simp [emptyExtractedStyle])
    · exact hc
  · intro c hc hsome hcustom
    have hvars := (runCalls_props _ _ _ h).2
    rw [hvars]
    simp only [emptyExtractedStyle, List.nil_append]
    refine List.mem_filterMap.mpr ⟨c, hc, ?_⟩
    rcases hv : c.value with _ | v
    · rw [hv] at hsome; exact absurd hsome (by simp)
    · simp [variableCallProp, hv, hcustom]
  · intro p hp; simp [normalizeProp, hp]
  · intro p hp; simp [normalizeProp, hp]

/-- A declaration block with one custom property. -/
def customPropBlock : DeclarationBlock :=
  { declarations := [⟨"--primary", some (.str "red"), false, false⟩],
    importantDeclarations := [] }

/-- The extracted style for `customPropBlock`. -/
def customPropStyle : ExtractedStyle :=
  { style := [("--primary", .str "red")], runtimeStyleProps := [],
    variableProps := ["--primary"] }

/-- C6 fails as stated: a rule `.a { --primary: red }` puts an
`ExtractedStyle` into the registry whose `style` map has the key
`--primary`, which does start with `--` — custom properties are stored
under their unchanged name, not stripped or camelized. -/
theorem style_key_keeps_dashdash :
    extractRule (.style ⟨some customPropBlock, [[.cls "a"]]⟩) [] []
      = some ([("a", .single customPropStyle)], []) ∧
    ("--primary", Value.str "red") ∈ customPropStyle.style ∧
    startsWithDashDash "--primary" = true := by
  exact ⟨rfl, by simp [customPropStyle], rfl⟩

/-- Witness for the amended C6 at the custom-property block. -/
theorem style_keys_normalized_witness :
    "--primary" ∈ customPropStyle.variableProps ∧
    normalizeProp "--primary" = "--primary" :=
  ⟨(style_keys_normalized customPropBlock customPropStyle rfl).2.1
      ⟨"--primary", some (.str "red"), false, false⟩ (by simp [customPropBlock]) rfl rfl,
   (style_keys_normalized customPropBlock customPropStyle rfl).2.2.2 "--primary" rfl⟩

/-! ## Selector classification -/

/-- The last (or only) class component of a compound selector, the
governing class name of the spec. -/
def lastClassName : List SimpleSelector → Option String
  | [] => none
  | s :: rest =>
    match lastClassName rest with
    | some c => some c
    | none =>
      match s with
      | .cls n => some n
      | _ => none

/-- Whether a simple selector is the `:hover` pseudo-class. -/
def isHoverSel : SimpleSelector → Bool
  | .pseudoCls .hover => true
  | _ => false

/-- Whether a simple selector is the `:active` pseudo-class. -/
def isActiveSel : SimpleSelector → Bool
  | .pseudoCls .active => true
  | _ => false

/-- Whether a simple selector is the `:focus` pseudo-class. -/
def isFocusSel : SimpleSelector → Bool
  | .pseudoCls .focus => true
  | _ => false

/-- Whether a compound selector contains `:hover`. -/
def hasHover (selectors : List SimpleSelector) : Bool :=
  selectors.any isHoverSel

/-- Whether a compound selector contains `:active`. -/
def hasActive (selectors : List SimpleSelector) : Bool :=
  selectors.any isActiveSel

/-- Whether a compound selector contains `:focus`. -/
def hasFocus (selectors : List SimpleSelector) : Bool :=
  selectors.any isFocusSel

theorem hasHover_cons (s : SimpleSelector) (rest : List SimpleSelector) :
    hasHover (s :: rest) = (isHoverSel s || hasHover rest) := rfl

theorem hasActive_cons (s : SimpleSelector) (rest : List SimpleSelector) :
    hasActive (s :: rest) = (isActiveSel s || hasActive rest) := rfl

theorem hasFocus_cons (s : SimpleSelector) (rest : List SimpleSelector) :
    hasFocus (s :: rest) = (isFocusSel s || hasFocus rest) := rfl

/-- The simple-selector kinds `setStyleForSelectorList` acknowledges but
ignores: everything except a class selector and the three recognized
pseudo-classes. -/
def ignoredSelector : SimpleSelector → Bool
  | .cls _ => false
  | .pseudoCls .hover => false
  | .pseudoCls .active => false
  | .pseudoCls .focus => false
  | _ => true

theorem classify_foldl_fst :
    ∀ (selectors : List SimpleSelector) (acc : Option String × Option PseudoClassesQuery),
      (selectors.foldl classifyStep acc).1 =
        match lastClassName selectors with
        | some c => some c
        | none => acc.1 := by
  intro selectors
  induction selectors with
  | nil => intro acc; rfl
  | cons s rest ih =>
    intro acc
    have hstep : (s :: rest).foldl classifyStep acc
        = rest.foldl classifyStep (classifyStep acc s) := rfl
    rw [hstep, ih]
    cases hr : lastClassName rest with
    | some c => simp [lastClassName, hr]
    | none =>
      cases s with
      | combinator => simp [lastClassName, hr, classifyStep]
      | universal => simp [lastClassName, hr, classifyStep]
      | ns => simp [lastClassName, hr, classifyStep]
      | typ name => simp [lastClassName, hr, classifyStep]
      | id name => simp [lastClassName, hr, classifyStep]
      | cls name => simp [lastClassName, hr, classifyStep]
      | attr name => simp [lastClassName, hr, classifyStep]
      | pseudoCls k => cases k <;> simp [lastClassName, hr, classifyStep]
      | pseudoElement => simp [lastClassName, hr, classifyStep]
      | nesting => simp [lastClassName, hr, classifyStep]

theorem classify_foldl_snd :
    ∀ (selectors : List SimpleSelector) (acc : Option String × Option PseudoClassesQuery),
      (selectors.foldl classifyStep acc).2 =
        if hasHover selectors || hasActive selectors || hasFocus selectors then
          some { hover := (acc.2.getD {}).hover || hasHover selectors,
                 active := (acc.2.getD {}).active || hasActive selectors,
                 focus := (acc.2.getD {}).focus || hasFocus selectors }
        else acc.2 := by
  intro selectors
  induction selectors with
  | nil => intro acc; simp [hasHover, hasActive, hasFocus]
  | cons s rest ih =>
    intro acc
    have hstep : (s :: rest).foldl classifyStep acc
        = rest.foldl classifyStep (classifyStep acc s) := rfl
    rw [hstep, ih, hasHover_cons, hasActive_cons, hasFocus_cons]
    cases s with
    | combinator =>
      cases hh : hasHover rest <;> cases ha : hasActive rest <;> cases hf : hasFocus rest <;>
        simp [classifyStep, isHoverSel, isActiveSel, isFocusSel, hh, ha, hf]
    | universal =>
      cases hh : hasHover rest <;> cases ha : hasActive rest <;> cases hf : hasFocus rest <;>
        simp [classifyStep, isHoverSel, isActiveSel, isFocusSel, hh, ha, hf]
    | ns =>
      cases hh : hasHover rest <;> cases ha : hasActive rest <;> cases hf : hasFocus rest <;>
        simp [classifyStep, isHoverSel, isActiveSel, isFocusSel, hh, ha, hf]
    | typ name =>
      cases hh : hasHover rest <;> cases ha : hasActive rest <;> cases hf : hasFocus rest <;>
        simp [classifyStep, isHoverSel, isActiveSel, isFocusSel, hh, ha, hf]
    | id name =>
      cases hh : hasHover rest <;> cases ha : hasActive rest <;> cases hf : hasFocus rest <;>
        simp [classifyStep, isHoverSel, isActiveSel, isFocusSel, hh, ha, hf]
    | cls name =>
      cases hh : hasHover rest <;> cases ha : hasActive rest <;> cases hf : hasFocus rest <;>
        simp [classifyStep, isHoverSel, isActiveSel, isFocusSel, hh, ha, hf]
    | attr name =>
      cases hh : hasHover rest <;> cases ha : hasActive rest <;> cases hf : hasFocus rest <;>
        simp [classifyStep, isHoverSel, isActiveSel, isFocusSel, hh, ha, hf]
    | pseudoCls k =>
      cases k <;>
        (cases hh : hasHover rest <;> cases ha : hasActive rest <;> cases hf : hasFocus rest <;>
          simp [classifyStep, isHoverSel, isActiveSel, isFocusSel, hh, ha, hf])
    | pseudoElement =>
      cases hh : hasHover rest <;> cases ha : hasActive rest <;> cases hf : hasFocus rest <;>
        simp [classifyStep, isHoverSel, isActiveSel, isFocusSel, hh, ha, hf]
    | nesting =>
      cases hh : hasHover rest <;> cases ha : hasActive rest <;> cases hf : hasFocus rest <;>
        simp [classifyStep, isHoverSel, isActiveSel, isFocusSel, hh, ha, hf]

/-- C7: the governing class name of a compound selector is the last (or
only) class component; a compound selector without a class contributes no
registry entry; the pseudo-class record exists exactly when one of
`hover`/`active`/`focus` occurs, and then each flag reflects the presence
of the corresponding pseudo-class; every other simple-selector kind is a
no-op for the classification. -/
theorem selector_classification (selectors : List SimpleSelector)
    (style : ExtractedStyle) (declarations : Registry) :
    ((classifyCompound selectors).1 = lastClassName selectors) ∧
    (lastClassName selectors = none →
      setStyleForSelectorList style [selectors] declarations = declarations) ∧
    ((classifyCompound selectors).2 = none ↔
      (hasHover selectors || hasActive selectors || hasFocus selectors) = false) ∧
    (∀ q, (classifyCompound selectors).2 = some q →
      q.hover = hasHover selectors ∧ q.active = hasActive selectors ∧
        q.focus = hasFocus selectors) ∧
    (∀ s acc, ignoredSelector s = true → classifyStep acc s = acc) := by
  have hfst : (classifyCompound selectors).1 =
      match lastClassName selectors with
      | some c => some c
      | none => none := classify_foldl_fst selectors (none, none)
  have hsnd : (classifyCompound selectors).2 =
      if hasHover selectors || hasActive selectors || hasFocus selectors then
        some { hover := hasHover selectors, active := hasActive selectors,
               focus := hasFocus selectors }
      else none := classify_foldl_snd selectors (none, none)
  refine ⟨?_, ?_, ?_, ?_, ?_⟩
  · rw [hfst]; cases lastClassName selectors <;> rfl
  · intro h
    have h1 : (classifyCompound selectors).1 = none := by
      rw [hfst, h]
    rcases hcc : classifyCompound selectors with ⟨c1, c2⟩
    rw [hcc] at h1
    cases c1 with
    | none => simp [setStyleForSelectorList, classifyCompound] at hcc ⊢; simp [hcc]
    | some c => exact absurd h1 (by simp)
  · rw [hsnd]
    cases hcond : (hasHover selectors || hasActive selectors || hasFocus selectors) <;>
      simp [hcond]
  · intro q hq
    rw [hsnd] at hq
    by_cases hcond :
        (hasHover selectors || hasActive selectors || hasFocus selectors) = true
    · rw [if_pos hcond] at hq
      injection hq with hq
      subst hq
      refine ⟨?_, ?_, ?_⟩ <;> simp
    · rw [if_neg hcond] at hq
      exact absurd hq (by simp)
  · intro s acc h
    cases s with
    | combinator => rfl
    | universal => rfl
    | ns => rfl
    | typ name => rfl
    | id name => rfl
    | cls name => exact absurd h (by simp [ignoredSelector])
    | attr name => rfl
    | pseudoCls k =>
      cases k with
      | hover => exact absurd h (by simp [ignoredSelector])
      | active => exact absurd h (by simp [ignoredSelector])
      | focus => exact absurd h (by simp [ignoredSelector])
      | other name => rfl
    | pseudoElement => rfl
    | nesting => rfl

/-- Witness for C7: a class-less compound selector (`div`) contributes no
registry entry, and an ignored selector kind leaves the classification
state untouched. -/
theorem selector_classification_witness :
    setStyleForSelectorList emptyExtractedStyle [[SimpleSelector.typ "div"]] [] = [] ∧
    classifyStep (none, none) SimpleSelector.universal = (none, none) :=
  ⟨(selector_classification [SimpleSelector.typ "div"] emptyExtractedStyle []).2.1 rfl,
   (selector_classification [] emptyExtractedStyle []).2.2.2.2 SimpleSelector.universal
     (none, none) rfl⟩

/-! ## Media-query filtering -/

theorem isScreenQuery_eq_xor (mq : MediaQuery) :
    isScreenQuery mq
      = Bool.xor (!(mq.mediaType == some "print")) (mq.qualifier == some "not") := by
  cases hq : (mq.qualifier == some "not") <;> simp [isScreenQuery, hq]

/-- Whether a rule nested in a media rule is extracted by `extractedMedia`
(`rule.type === "style" && rule.value.declarations`): a style rule with a
declaration block.  Every other nested rule is skipped. -/
def isExtractableStyleRule : Rule → Bool
  | .style sv => sv.declarations.isSome
  | _ => false

/-- C4: a media query is kept iff "media type is not `print`" XOR "the
qualifier is `not`"; when no query survives the filter the media rule
leaves the registry untouched, whatever its nested rules; otherwise the
nested rules are processed in order, fully characterized by three
equations — an empty nested list leaves the registry unchanged, a leading
style rule with declarations is extracted with the non-empty filtered
query list attached as its `media` field and merged through
`setStyleForSelectorList` before the remaining nested rules are
processed, and any other leading nested rule is skipped.  Hence each
nested style rule with declarations, however many there are, carries the
filtered list and goes through the normal merge. -/
theorem media_rule_filtering (mediaQueries : List MediaQuery) (declarations : Registry) :
    (∀ mq, mq ∈ screenQueries mediaQueries ↔
      mq ∈ mediaQueries ∧
        Bool.xor (!(mq.mediaType == some "print")) (mq.qualifier == some "not") = true) ∧
    (screenQueries mediaQueries = [] →
      ∀ rules, extractedMedia mediaQueries rules declarations = some declarations) ∧
    (screenQueries mediaQueries ≠ [] →
      (extractedMedia mediaQueries [] declarations = some declarations) ∧
      (∀ (db : DeclarationBlock) (selectors : List (List SimpleSelector)) (rest : List Rule),
        extractedMedia mediaQueries (.style ⟨some db, selectors⟩ :: rest) declarations =
          (getExtractedStyle db).bind fun es =>
            extractedMedia mediaQueries rest
              (setStyleForSelectorList
                { es with media := some (screenQueries mediaQueries) }
                selectors declarations)) ∧
      (∀ (r : Rule) (rest : List Rule), isExtractableStyleRule r = false →
        extractedMedia mediaQueries (r :: rest) declarations =
          extractedMedia mediaQueries rest declarations)) := by
  refine ⟨?_, ?_, ?_⟩
  · intro mq
    simp [screenQueries, List.mem_filter, isScreenQuery_eq_xor]
  · intro h rules
    simp [extractedMedia, h]
  · intro h
    have hne : (screenQueries mediaQueries).isEmpty = false := by
      rcases hsq : screenQueries mediaQueries with _ | ⟨q, qs⟩
      · exact absurd hsq h
      · rfl
    refine ⟨?_, ?_, ?_⟩
    · simp [extractedMedia, hne, List.foldlM]
    · intro db selectors rest
      rcases hge : getExtractedStyle db with _ | es <;>
        simp [extractedMedia, hne, hge, List.foldlM]
    · intro r rest hr
      cases r with
      | style sv =>
        rcases hd : sv.declarations with _ | db
        · simp [extractedMedia, hne, List.foldlM, hd]
        · exact absurd hr (by simp [isExtractableStyleRule, hd])
      | media qs2 rs2 => simp [extractedMedia, hne, List.foldlM]
      | keyframes kf => simp [extractedMedia, hne, List.foldlM]
      | other => simp [extractedMedia, hne, List.foldlM]

/-- Witness for C4: `@media print` contributes nothing; under
`@media not print` a leading `.a` style rule is merged through
`setStyleForSelectorList` with the filtered query list attached before the
remaining nested rules run, and a non-style nested rule is skipped. -/
theorem media_rule_filtering_witness :
    extractedMedia [⟨some "print", none⟩] [] [] = some [] ∧
    extractedMedia [⟨some "print", some "not"⟩]
        [Rule.style ⟨some emptyDeclarationBlock, [[SimpleSelector.cls "a"]]⟩, Rule.other]
        [] =
      ((getExtractedStyle emptyDeclarationBlock).bind fun es =>
        extractedMedia [⟨some "print", some "not"⟩] [Rule.other]
          (setStyleForSelectorList
            { es with media := some (screenQueries [⟨some "print", some "not"⟩]) }
            [[SimpleSelector.cls "a"]] [])) ∧
    extractedMedia [⟨some "print", some "not"⟩] [Rule.other] [] =
      extractedMedia [⟨some "print", some "not"⟩] [] [] :=
  ⟨(media_rule_filtering [⟨some "print", none⟩] []).2.1 (by decide) [],
   ((media_rule_filtering [⟨some "print", some "not"⟩] []).2.2 (by decide)).2.1
     emptyDeclarationBlock [[SimpleSelector.cls "a"]] [Rule.other],
   ((media_rule_filtering [⟨some "print", some "not"⟩] []).2.2 (by decide)).2.2
     Rule.other [] rfl⟩

end CssToRN
